import Mathlib

/-!
# Verification of the blog's routing and content-loading pipeline

A shallow embedding of the client-side blog code (post manager, router,
search manager and string utilities) together with proofs about the
behaviour claimed by its specification.

JavaScript strings are modelled as `List Char` (or Lean `String`s whose
`.data` field is manipulated directly); JSON documents fetched from the
network are modelled by explicit environment records mapping URLs to
fetch outcomes.  Browser-provided text transformations whose internals
live outside the repository (DOM text extraction, locale date
formatting, `Date` parsing) are taken as function parameters.
-/

set_option maxRecDepth 8000

namespace Blog

/-! ## JS string primitives, modelled on lists of characters -/

/-- Model of `String.prototype.split` with a one-character separator:
`"a/b".split("/") = ["a","b"]`, `"".split("/") = [""]`,
`"/a".split("/") = ["","a"]`. -/
def splitOnC (sep : Char) : List Char → List (List Char)
  | [] => [[]]
  | c :: rest =>
    match splitOnC sep rest with
    | [] => [[]]
    | g :: gs => if c = sep then [] :: g :: gs else (c :: g) :: gs

/-- The whitespace class used by `String.prototype.trim` and `\s`
(modelled on the ASCII range plus NBSP; the rarer Unicode space
characters are not exercised by this code base). -/
def jsIsWhitespace (c : Char) : Bool :=
  c = ' ' || c = '\t' || c = '\n' || c = '\r' ||
  c.toNat = 11 || c.toNat = 12 || c.toNat = 160

/-- Model of `String.prototype.trim` on a character list. -/
def jsTrimL (l : List Char) : List Char :=
  ((l.dropWhile jsIsWhitespace).reverse.dropWhile jsIsWhitespace).reverse

/-- Model of `String.prototype.trim`. -/
def jsTrim (s : String) : String := ⟨jsTrimL s.data⟩

/-- Model of `String.prototype.toLowerCase` (ASCII range, which is all this code
base exercises; `Char.toLower` lowers exactly the ASCII uppercase
letters). -/
def jsToLowerL (l : List Char) : List Char := l.map Char.toLower

/-- Decidable substring test: `isInfixB needle hay` is
`hay.includes(needle)` for JS strings. -/
def isInfixB (needle : List Char) : List Char → Bool
  | [] => needle.isEmpty
  | c :: rest => needle.isPrefixOf (c :: rest) || isInfixB needle rest

/-- Model of `hay.includes(needle)` on Lean strings. -/
def strIncludes (hay needle : String) : Bool := isInfixB needle.data hay.data

/-! ## Percent encoding (`encodeURIComponent` / `decodeURIComponent`) -/

/-- Uppercase hexadecimal digit for `n < 16`. -/
def hexDigitChar (n : Nat) : Char :=
  if n < 10 then Char.ofNat (48 + n) else Char.ofNat (55 + n)

def isHexDigit (c : Char) : Bool :=
  (decide ('0' ≤ c) && decide (c ≤ '9')) ||
  (decide ('A' ≤ c) && decide (c ≤ 'F')) ||
  (decide ('a' ≤ c) && decide (c ≤ 'f'))

def hexVal (c : Char) : Nat :=
  if decide ('0' ≤ c) && decide (c ≤ '9') then c.toNat - 48
  else if decide ('A' ≤ c) && decide (c ≤ 'F') then c.toNat - 55
  else c.toNat - 87

/-- UTF-8 byte sequence of one character (bytes as `Nat`s below 256). -/
def utf8EncodeChar (c : Char) : List Nat :=
  let n := c.toNat
  if n < 0x80 then [n]
  else if n < 0x800 then [0xC0 + n / 64, 0x80 + n % 64]
  else if n < 0x10000 then
    [0xE0 + n / 4096, 0x80 + (n / 64) % 64, 0x80 + n % 64]
  else
    [0xF0 + n / 262144, 0x80 + (n / 4096) % 64, 0x80 + (n / 64) % 64, 0x80 + n % 64]

def isUtf8Cont (b : Nat) : Bool := 0x80 ≤ b && b ≤ 0xBF

/-- Strict UTF-8 decoding of a byte sequence (rejecting truncated
sequences, stray continuation bytes, overlong encodings, surrogates and
out-of-range code points), as `decodeURIComponent` requires. -/
def utf8Decode : List Nat → Option (List Char)
  | [] => some []
  | b :: rest =>
    if b < 0x80 then (utf8Decode rest).map (Char.ofNat b :: ·)
    else if b < 0xC2 then none
    else if b ≤ 0xDF then
      match rest with
      | b2 :: r2 =>
        if isUtf8Cont b2 then
          (utf8Decode r2).map (Char.ofNat ((b - 0xC0) * 64 + (b2 - 0x80)) :: ·)
        else none
      | _ => none
    else if b ≤ 0xEF then
      match rest with
      | b2 :: b3 :: r3 =>
        if isUtf8Cont b2 && isUtf8Cont b3 then
          let n := (b - 0xE0) * 4096 + (b2 - 0x80) * 64 + (b3 - 0x80)
          if n < 0x800 || (0xD800 ≤ n && n ≤ 0xDFFF) then none
          else (utf8Decode r3).map (Char.ofNat n :: ·)
        else none
      | _ => none
    else if b ≤ 0xF4 then
      match rest with
      | b2 :: b3 :: b4 :: r4 =>
        if isUtf8Cont b2 && isUtf8Cont b3 && isUtf8Cont b4 then
          let n := (b - 0xF0) * 262144 + (b2 - 0x80) * 4096 + (b3 - 0x80) * 64 + (b4 - 0x80)
          if n < 0x10000 || n > 0x10FFFF then none
          else (utf8Decode r4).map (Char.ofNat n :: ·)
        else none
      | _ => none
    else none

/-- Model of `encodeURIComponent`: every character outside the unreserved set is
replaced by the uppercase-hex percent encoding of its UTF-8 bytes.  The
unreserved set is `A-Z a-z 0-9 - _ . ! ~ * ' ( )`. -/
def encodeURIComponent (s : List Char) : List Char :=
  s.flatMap fun c =>
    if c.isAlpha || c.isDigit || c = '-' || c = '_' || c = '.' || c = '!' ||
       c = '~' || c = '*' || c = Char.ofNat 39 || c = '(' || c = ')' then
      [c]
    else
      (utf8EncodeChar c).flatMap fun b => ['%', hexDigitChar (b / 16), hexDigitChar (b % 16)]

/-- Collect the bytes denoted by a percent-encoded string; `none` models
the `URIError` thrown on a malformed `%` sequence. -/
def pctDecodeBytes : List Char → Option (List Nat)
  | [] => some []
  | '%' :: h1 :: h2 :: rest =>
    if isHexDigit h1 && isHexDigit h2 then
      (pctDecodeBytes rest).map ((hexVal h1 * 16 + hexVal h2) :: ·)
    else none
  | '%' :: _ :: [] => none
  | '%' :: [] => none
  | c :: rest => (pctDecodeBytes rest).map (utf8EncodeChar c ++ ·)

/-- Model of `decodeURIComponent`; `none` models a thrown `URIError` (malformed
percent sequence or invalid UTF-8). -/
def decodeURIComponentL (s : List Char) : Option (List Char) :=
  (pctDecodeBytes s).bind utf8Decode

/-- Model of `application/x-www-form-urlencoded` decoding used by
`URLSearchParams`: `+` means space, malformed `%` sequences are kept
literally, and it never throws.  (Browsers map invalid UTF-8 to U+FFFD;
that corner is not exercised here and collapses to the empty string.) -/
def formDecodeBytes : List Char → List Nat
  | [] => []
  | '%' :: h1 :: h2 :: rest =>
    if isHexDigit h1 && isHexDigit h2 then
      (hexVal h1 * 16 + hexVal h2) :: formDecodeBytes rest
    else utf8EncodeChar '%' ++ formDecodeBytes (h1 :: h2 :: rest)
  | '+' :: rest => 32 :: formDecodeBytes rest
  | c :: rest => utf8EncodeChar c ++ formDecodeBytes rest

def formDecode (s : List Char) : List Char := (utf8Decode (formDecodeBytes s)).getD []

/-- Model of `new URLSearchParams(q)`: split on `&`, drop empty pieces, split each
piece at the first `=` and form-decode both sides; pairs are kept in
insertion order. -/
def urlSearchParams (q : List Char) : List (List Char × List Char) :=
  ((splitOnC '&' q).filter (· ≠ [])).map fun seg =>
    let key := seg.takeWhile (· ≠ '=')
    let rest := seg.dropWhile (· ≠ '=')
    (formDecode key, formDecode rest.tail)

/-! ## Utility functions (`js/utils.js`) -/

/-- Number of maximal whitespace runs in a character list (helper for
`text.split(/\s+/).length`). -/
def wsRuns : Bool → List Char → Nat
  | _, [] => 0
  | inRun, c :: rest =>
    if jsIsWhitespace c then (if inRun then 0 else 1) + wsRuns true rest
    else wsRuns false rest

/-- Model of `text.split(/\s+/).length`: one more than the number of maximal
whitespace runs (a leading or trailing run contributes an empty
element, exactly as in JS). -/
def jsSplitWsCount (l : List Char) : Nat := 1 + wsRuns false l

/-- Model of `calculateReadingTime`: `Math.ceil(words / 200)` where `words` is
`text.split(/\s+/).length`. -/
def calculateReadingTime (text : String) : Nat :=
  (jsSplitWsCount text.data + 199) / 200

/-- Model of `generateExcerpt` with the default `maxLength = 150`; `extract`
stands for the DOM-based `extractTextFromHTML`. -/
def generateExcerpt (extract : String → String) (content : String) : String :=
  let text := extract content
  if text.data.length ≤ 150 then text
  else String.mk (jsTrimL (text.data.take 150)) ++ "..."

/-- ECMAScript `GetSubstitution` for a string replacement against a
regular expression with no capture groups: in the replacement template,
`$$` yields `$`, `$&` yields the matched text, a `$` followed by a
backquote yields the part of the subject before the match, `$` followed
by an apostrophe yields the part after the match, and every other `$`
(including `$n` and `$<`, which refer to capture groups this regex does
not have) stands for itself.  Arguments: the matched text, the subject
before the match, the subject after the match, then the template. -/
def getSubstitution (matched before after : List Char) : List Char → List Char
  | [] => []
  | c :: rest =>
    if c = '$' then
      match rest with
      | [] => ['$']
      | c2 :: rest2 =>
        if c2 = '$' then '$' :: getSubstitution matched before after rest2
        else if c2 = '&' then matched ++ getSubstitution matched before after rest2
        else if c2 = Char.ofNat 96 then before ++ getSubstitution matched before after rest2
        else if c2 = Char.ofNat 39 then after ++ getSubstitution matched before after rest2
        else '$' :: getSubstitution matched before after (c2 :: rest2)
    else c :: getSubstitution matched before after rest

/-- Model of `str.replace(new RegExp(pat, "g"), rep)` for a literal nonempty
pattern and a string replacement: scan left to right, replace each
occurrence by `GetSubstitution` of the replacement template (the
matched text of a literal groupless pattern is the pattern itself, the
before/after contexts are taken from the original subject), never
rescanning replaced text.  `skip` counts characters still to swallow
after a match and `before` accumulates the subject scanned so far (so
the recursion is structural); the public entry point starts at
`skip = 0` with an empty `before`.  (For an empty pattern JS would
insert the substitution around every character; the patterns used here
are never empty.) -/
def replAllGo (pat rep : List Char) : Nat → List Char → List Char → List Char
  | _, _, [] => []
  | skip + 1, before, c :: rest => replAllGo pat rep skip (before ++ [c]) rest
  | 0, before, c :: rest =>
    if pat.isPrefixOf (c :: rest) then
      getSubstitution pat before ((c :: rest).drop pat.length) rep ++
        replAllGo pat rep (pat.length - 1) (before ++ [c]) rest
    else c :: replAllGo pat rep 0 (before ++ [c]) rest

def jsReplaceAll (pat rep s : List Char) : List Char := replAllGo pat rep 0 [] s

/-- The `$`-free specialization of `replAllGo` (the replacement spliced
verbatim, its position contexts irrelevant): a proof device, shown
equal to `replAllGo` whenever the replacement contains no `$`. -/
def replAllGoPlain (pat rep : List Char) : Nat → List Char → List Char
  | _, [] => []
  | skip + 1, _ :: rest => replAllGoPlain pat rep skip rest
  | 0, c :: rest =>
    if pat.isPrefixOf (c :: rest) then
      rep ++ replAllGoPlain pat rep (pat.length - 1) rest
    else c :: replAllGoPlain pat rep 0 rest

/-- The literal placeholder token `\x7b\x7bphotoN\x7d\x7d` (1-based
`N`), built by `replacePhotoPlaceholders`. -/
def placeholderPat (n : Nat) : List Char :=
  "\x7b\x7bphoto".data ++ (Nat.repr n).data ++ "\x7d\x7d".data

/-- The image element substituted for the `N`-th placeholder. -/
def imgTag (photo : List Char) (n : Nat) : List Char :=
  "<img src=\"".data ++ photo ++ "\" alt=\"Blog image ".data ++ (Nat.repr n).data ++
    "\" class=\"w-full h-auto rounded-lg shadow-md my-4\" loading=\"lazy\">".data

/-- The `photos.forEach((photo, index) => ...)` loop of
`replacePhotoPlaceholders`, starting at 0-based index `i`. -/
def replacePhotosAux (i : Nat) : List (List Char) → List Char → List Char
  | [], content => content
  | ph :: rest, content =>
    replacePhotosAux (i + 1) rest
      (jsReplaceAll (placeholderPat (i + 1)) (imgTag ph (i + 1)) content)

/-- Model of `replacePhotoPlaceholders(content, photos)` on character lists. -/
def replacePhotoPlaceholdersL (content : List Char) (photos : List (List Char)) : List Char :=
  replacePhotosAux 0 photos content

/-- Model of `replacePhotoPlaceholders(content, photos)` on strings. -/
def replacePhotoPlaceholders (content : String) (photos : List String) : String :=
  ⟨replacePhotoPlaceholdersL content.data (photos.map String.data)⟩

/-! ## The data model (`js/posts.js`) -/

/-- The optional `tags` key of a post document: either a comma-separated
string or an array of strings. -/
inductive TagsVal where
  | str (s : String)
  | arr (l : List String)
deriving DecidableEq

/-- A fetched post document (`<slug>.json`).  Required keys are
`Option` so that a missing key (`hasOwnProperty` false) is
representable; `validatePost` also rejects present-but-empty values. -/
structure PostDoc where
  slug : Option String
  title : Option String
  author : Option String
  date : Option String
  contents : Option String
  category : Option String
  tags : Option TagsVal
  coverPhoto : Option String
  photos : Option (List String)
deriving DecidableEq

/-- A required field passes when it is present and truthy (a nonempty
string). -/
def reqFieldOk : Option String → Bool
  | some s => s ≠ ""
  | none => false

/-- Model of `PostManager.validatePost`. -/
def validatePost (d : PostDoc) : Bool :=
  reqFieldOk d.slug && reqFieldOk d.title && reqFieldOk d.author &&
  reqFieldOk d.date && reqFieldOk d.contents

/-- A normalized in-memory post, as produced by `loadPost`. -/
structure Post where
  slug : String
  title : String
  author : String
  date : String
  contents : String
  category : Option String
  coverPhoto : Option String
  photos : List String
  processedContent : String
  excerpt : String
  readingTime : Nat
  formattedDate : String
  tagArray : List String
deriving DecidableEq

/-- The `post.tags` → `post.tagArray` normalization in `loadPost`:
a string is split on commas, trimmed and cleaned of empties; an array is
kept; anything else becomes `[]`. -/
def mkTagArray : Option TagsVal → List String
  | some (.str s) =>
    (((splitOnC ',' s.data).map jsTrimL).filter (· ≠ [])).map String.mk
  | some (.arr l) => l
  | none => []

/-- The normalization block of `loadPost`: derived fields computed once
and cached on the post.  `extract` models `extractTextFromHTML`,
`fmtDate` models `formatDate` (locale-dependent). -/
def processPost (extract fmtDate : String → String) (d : PostDoc) : Post :=
  let contents := d.contents.getD ""
  { slug := d.slug.getD ""
    title := d.title.getD ""
    author := d.author.getD ""
    date := d.date.getD ""
    contents := contents
    category := d.category
    coverPhoto := d.coverPhoto
    photos := d.photos.getD []
    processedContent := replacePhotoPlaceholders contents (d.photos.getD [])
    excerpt := generateExcerpt extract contents
    readingTime := calculateReadingTime (extract contents)
    formattedDate := fmtDate (d.date.getD "")
    tagArray := mkTagArray d.tags }

/-- Outcome of `fetch("static/posts/<slug>.json")`: `ok (some d)` is a
2xx response whose body parses to `d`; `ok none` is a 2xx response whose
`json()` throws; `httpError` is a non-ok response; `netError` is a
rejected fetch. -/
inductive PostFetch where
  | ok (doc : Option PostDoc)
  | httpError
  | netError
deriving DecidableEq

/-- The parsed index document; `posts` is its optional `posts` key
(`index.posts || []`). -/
structure IndexDoc where
  posts : Option (List String)
deriving DecidableEq

/-- Outcome of `fetch("static/posts/index.json")`, with the same reading
as `PostFetch`. -/
inductive IndexFetch where
  | ok (doc : Option IndexDoc)
  | httpError
  | netError
deriving DecidableEq

/-- The network environment a load runs against. -/
structure BlogEnv where
  indexFetch : IndexFetch
  postFetch : String → PostFetch

def indexUrl : String := "static/posts/index.json"

def postUrl (slug : String) : String := "static/posts/" ++ slug ++ ".json"

/-- The hard-coded probe list of `discoverPosts`. -/
def commonSlugs : List String :=
  ["welcome-to-my-blog", "getting-started-with-web-development",
   "javascript-best-practices", "css-tips-and-tricks", "my-development-setup"]

/-- Model of `PostManager.discoverPosts`: keep the common slugs whose fetch
resolves with an ok response (fetch rejections are swallowed and the
loop continues). -/
def discoverPosts (env : BlogEnv) : List String :=
  commonSlugs.filter fun sl =>
    match env.postFetch sl with
    | .ok _ => true
    | _ => false

/-- Model of `PostManager.loadPost`: any fetch failure, parse failure or
validation failure is caught and becomes `null` (`none`); otherwise the
document is validated and normalized. -/
def loadPost (extract fmtDate : String → String) (env : BlogEnv) (slug : String) :
    Option Post :=
  match env.postFetch slug with
  | .ok (some d) => if validatePost d then some (processPost extract fmtDate d) else none
  | _ => none

/-- The mutable fields of the `PostManager` singleton. -/
structure PMState where
  posts : List Post
  categories : List String
  tags : List String
  postsLoaded : Bool
  viewMode : String
deriving DecidableEq

def initialState : PMState := ⟨[], [], [], false, "grid"⟩

/-- Insertion-order deduplication, the observable content of a JS
`Set` built by repeated `add`. -/
def dedupe (xs : List String) : List String :=
  xs.foldl (fun acc x => if x ∈ acc then acc else acc ++ [x]) []

/-- Model of `PostManager.extractCategoriesAndTags`: rebuild both sets from the
collection (truthy categories only; every tag in every `tagArray`). -/
def extractCategoriesAndTags (s : PMState) : PMState :=
  { s with
    categories := dedupe (s.posts.filterMap fun p =>
      match p.category with
      | some c => if c = "" then none else some c
      | none => none)
    tags := dedupe (s.posts.flatMap Post.tagArray) }

/-- A load error surfaced to the caller (the rethrow in the catch block
of `loadAllPosts`). -/
abbrev LoadError := Unit

/-- Model of `PostManager.loadAllPosts`: returns the result seen by the caller
(`Except` models resolve/reject), the post-call state, and the list of
URLs fetched during the call. -/
def loadAllPostsS (extract fmtDate : String → String) (env : BlogEnv) (s : PMState) :
    Except LoadError (List Post) × PMState × List String :=
  if s.postsLoaded then (.ok s.posts, s, [])
  else
    match env.indexFetch with
    | .netError => (.error (), s, [indexUrl])
    | .ok none => (.error (), s, [indexUrl])
    | .ok (some idx) =>
      let slugs := idx.posts.getD []
      let posts := (slugs.map (loadPost extract fmtDate env)).filterMap id
      (.ok posts,
       extractCategoriesAndTags { s with posts := posts, postsLoaded := true },
       indexUrl :: slugs.map postUrl)
    | .httpError =>
      let slugs := discoverPosts env
      let posts := (slugs.map (loadPost extract fmtDate env)).filterMap id
      (.ok posts,
       extractCategoriesAndTags { s with posts := posts, postsLoaded := true },
       indexUrl :: (commonSlugs.map postUrl ++ slugs.map postUrl))

/-- Model of `PostManager.getPostBySlug`. -/
def getPostBySlug (slug : String) (s : PMState) : Option Post :=
  s.posts.find? fun p => p.slug = slug

/-- Model of `PostManager.getPostsByCategory` (strict equality, so an absent
category never matches). -/
def getPostsByCategory (category : String) (s : PMState) : List Post :=
  s.posts.filter fun p => p.category = some category

/-- Model of `PostManager.getPostsByTag`. -/
def getPostsByTag (tag : String) (s : PMState) : List Post :=
  s.posts.filter fun p => tag ∈ p.tagArray

/-- Model of `PostManager.getLatestPosts`: `this.posts.sort(...)` sorts the
stored array **in place** (so the state changes), then the first
`limit` posts of the sorted array are returned.  `dateVal` models
`new Date(str).getTime()`; JS `Array.prototype.sort` is stable, which
insertion sort reproduces. -/
def getLatestPosts (dateVal : String → Int) (s : PMState) (limit : Nat) :
    List Post × PMState :=
  let sorted := List.insertionSort (fun a b => dateVal b.date ≤ dateVal a.date) s.posts
  (sorted.take limit, { s with posts := sorted })

/-- Model of `PostManager.searchPosts`. -/
def searchPosts (extract : String → String) (query : String) (s : PMState) : List Post :=
  let searchTerm := jsToLowerL query.data
  s.posts.filter fun post =>
    let titleMatch := isInfixB searchTerm (jsToLowerL post.title.data)
    let contentMatch := isInfixB searchTerm (jsToLowerL (extract post.contents).data)
    let tagMatch := post.tagArray.any fun tag => isInfixB searchTerm (jsToLowerL tag.data)
    let categoryMatch :=
      match post.category with
      | some c => isInfixB searchTerm (jsToLowerL c.data)
      | none => false
    titleMatch || contentMatch || tagMatch || categoryMatch

/-! ## The router (`js/router.js`, `Router.navigate` /
`Router.handleRouteChange`) -/

/-- The parameter object passed to `Router.navigate`; these are the
four keys `navigate` inspects. -/
structure Params where
  slug : Option (List Char)
  category : Option (List Char)
  tag : Option (List Char)
  q : Option (List Char)
deriving DecidableEq

/-- JS truthiness of an optional string field (`if (params.slug)`). -/
def pTruthy : Option (List Char) → Bool
  | some s => s ≠ []
  | none => false

/-- The value a truthy field contributes, `none` otherwise (used to
compare parsed parameters with the originals). -/
def truthyVal (o : Option (List Char)) : Option (List Char) :=
  match o with
  | some s => if s = [] then none else some s
  | none => none

/-- The URL built by `Router.navigate` (including the leading `#`).
Note every query parameter is appended with its own `?`. -/
def navigateUrl (route : List Char) (p : Params) : List Char :=
  '#' :: route ++
  (if pTruthy p.slug then '/' :: p.slug.getD [] else []) ++
  (if pTruthy p.category then "?category=".data ++ encodeURIComponent (p.category.getD []) else []) ++
  (if pTruthy p.tag then "?tag=".data ++ encodeURIComponent (p.tag.getD []) else []) ++
  (if pTruthy p.q then "?q=".data ++ encodeURIComponent (p.q.getD []) else [])

/-- JS object-key assignment on an association list: overwrite in place
if present, append otherwise. -/
def setKey : List (List Char × List Char) → List Char → List Char → List (List Char × List Char)
  | [], k, v => [(k, v)]
  | (k', v') :: rest, k, v =>
    if k' = k then (k, v) :: rest else (k', v') :: setKey rest k v

def slugKey : List Char := "slug".data

/-- The route/parameter extraction of `Router.handleRouteChange`, on the
fragment (`location.hash` without its leading `#`): split on `/`; the
head is the route name (empty falls back to `home`); the first
remaining path part becomes `params.slug`; the text after the first `?`
is parsed with `URLSearchParams` and each value is passed through
`decodeURIComponent` (which may throw, hence `Option`). -/
def parseFragment (frag : List Char) :
    Option (List Char × List (List Char × List Char)) :=
  let parts := splitOnC '/' frag
  let route := parts.headD []
  let pathParts := parts.tail
  let queryStr := ((splitOnC '?' frag).drop 1).headD []
  let base : List (List Char × List Char) :=
    match pathParts.head? with
    | some s => [(slugKey, s)]
    | none => []
  let withQuery :=
    (urlSearchParams queryStr).foldl
      (fun acc kv =>
        acc.bind fun m => (decodeURIComponentL kv.2).map fun v => setKey m kv.1 v)
      (some base)
  withQuery.map fun m => (if route = [] then "home".data else route, m)

/-- The round trip of claim C3 as a decidable test: build the fragment
with `navigate`, parse it back, and compare the route name and the four
parameter keys the system produces. -/
def roundTripB (route : List Char) (p : Params) : Bool :=
  match parseFragment ((navigateUrl route p).drop 1) with
  | some (r, m) =>
    decide (r = route) &&
    decide (m.lookup slugKey = truthyVal p.slug) &&
    decide (m.lookup "category".data = truthyVal p.category) &&
    decide (m.lookup "tag".data = truthyVal p.tag) &&
    decide (m.lookup "q".data = truthyVal p.q)
  | none => false

/-- The fixed route set of the specification's fragment scheme. -/
def specRoutes : List (List Char) :=
  ["home".data, "posts".data, "post".data, "categories".data,
   "tags".data, "search".data, "about".data]

/-! ## The search manager (`js/search.js`, `SearchManager.handleSearch`) -/

/-- The user-visible effect of one `handleSearch` call. -/
inductive SearchAction where
  | navigateHome
  | noop
  | navigateSearch (query : String) (results : List Post)
  | showError
deriving DecidableEq

/-- Model of `SearchManager.handleSearch`: empty trimmed query navigates home;
a trimmed query of length 1 returns without doing anything; otherwise
posts are loaded (memoized), the search runs, and the router is asked
to navigate to the results. -/
def handleSearch (extract fmtDate : String → String) (env : BlogEnv) (query : String)
    (s : PMState) : SearchAction × PMState :=
  let trimmedQuery := jsTrim query
  if trimmedQuery.data.length = 0 then (.navigateHome, s)
  else if trimmedQuery.data.length < 2 then (.noop, s)
  else
    match loadAllPostsS extract fmtDate env s with
    | (.ok _, s', _) =>
      (.navigateSearch trimmedQuery (searchPosts extract trimmedQuery s'), s')
    | (.error _, s', _) => (.showError, s')

/-! ## Predicates written from the specification's wording
(used on the right-hand side of refinement statements) -/

/-- Survival predicate from the spec: a slug survives the load when its
fetch succeeded and the fetched document carries non-empty `slug`,
`title`, `author`, `date` and `contents`. -/
def specSurvives (env : BlogEnv) (sl : String) : Bool :=
  match env.postFetch sl with
  | .ok (some d) =>
    decide (d.slug.getD "" ≠ "") && decide (d.title.getD "" ≠ "") &&
    decide (d.author.getD "" ≠ "") && decide (d.date.getD "" ≠ "") &&
    decide (d.contents.getD "" ≠ "")
  | _ => false

/-- Failure to fetch or parse the index document, in the spec's own
vocabulary (which counts a 404 as a fetch failure): anything other than
an ok response with a parsed body. -/
def indexFetchFailed (env : BlogEnv) : Bool :=
  match env.indexFetch with
  | .ok (some _) => false
  | _ => true

/-- The fields the spec says a free-text search inspects: title,
plain-text content, tag labels, and category label. -/
def specSearchFields (extract : String → String) (post : Post) : List String :=
  [post.title, extract post.contents] ++ post.tagArray ++
  (match post.category with
   | some c => [c]
   | none => [])

/-- A post matches, per the spec, when a case-insensitive substring test
succeeds on at least one of its searched fields. -/
def specSearchMatches (extract : String → String) (query : String) (post : Post) : Bool :=
  (specSearchFields extract post).any fun f =>
    isInfixB (jsToLowerL query.data) (jsToLowerL f.data)

/-! ## Concrete fixtures used by witnesses and counterexamples -/

/-- Value of a digit string (helper for the concrete date parser). -/
def digitsVal (l : List Char) : Nat := l.foldl (fun a c => a * 10 + (c.toNat - 48)) 0

/-- A concrete instantiation of the `dateVal` parameter: an order
embedding of ISO `yyyy-mm-dd` strings into the integers, agreeing with
calendar order exactly as `new Date(str).getTime()` does on such
strings. -/
def isoDateVal (s : String) : Int :=
  match splitOnC '-' s.data with
  | [y, m, d] => ((digitsVal y * 10000 + digitsVal m * 100 + digitsVal d : Nat) : Int)
  | _ => 0

/-- A minimal normalized post fixture. -/
def mkSimplePost (slug date : String) : Post :=
  { slug := slug, title := slug, author := "niaz", date := date, contents := slug,
    category := some "c", coverPhoto := none, photos := [], processedContent := slug,
    excerpt := slug, readingTime := 1, formattedDate := date, tagArray := [slug] }

/-- A valid post document fixture. -/
def mkSimpleDoc (slug : String) : PostDoc :=
  { slug := some slug, title := some slug, author := some "niaz",
    date := some "2025-01-01", contents := some slug, category := none,
    tags := none, coverPhoto := none, photos := none }

/-- Environment for the index scenario `["a","b","c"]` where fetching
`"b"` fails with a 404. -/
def envC1 : BlogEnv :=
  { indexFetch := .ok (some ⟨some ["a", "b", "c"]⟩)
    postFetch := fun sl =>
      if sl = "a" then .ok (some (mkSimpleDoc "a"))
      else if sl = "c" then .ok (some (mkSimpleDoc "c"))
      else .httpError }

/-- Environment where the index fetch returns a non-ok response (404)
but one of the well-known probe slugs exists and is valid. -/
def envC2 : BlogEnv :=
  { indexFetch := .httpError
    postFetch := fun sl =>
      if sl = "welcome-to-my-blog" then .ok (some (mkSimpleDoc "welcome-to-my-blog"))
      else .httpError }

/-- Environment where the index fetch rejects (network error). -/
def envNetErr : BlogEnv := { indexFetch := .netError, postFetch := fun _ => .httpError }

/-- A trivial environment (empty index) for runs whose network content
is irrelevant. -/
def envTriv : BlogEnv := { indexFetch := .ok (some ⟨some []⟩), postFetch := fun _ => .httpError }

/-- Two posts of one category, held in index order with the older post
first. -/
def pOld : Post := mkSimplePost "old-post" "2025-01-01"

def pNew : Post := mkSimplePost "new-post" "2025-02-01"

/-- A loaded store whose collection is `[pOld, pNew]` in index order. -/
def s8 : PMState := ⟨[pOld, pNew], [], [], true, "grid"⟩

def post1 : Post := mkSimplePost "p1" "2025-01-01"
def post2 : Post := mkSimplePost "p2" "2025-01-02"
def post3 : Post := mkSimplePost "p3" "2025-01-03"
def post4 : Post := mkSimplePost "p4" "2025-01-04"
def post5 : Post := mkSimplePost "p5" "2025-01-05"

/-- A loaded store of five posts with distinct dates, in jumbled
order. -/
def fiveState : PMState := ⟨[post2, post5, post1, post4, post3], [], [], true, "grid"⟩

/-- A loaded store for search witnesses: one matching and one
non-matching post. -/
def sSearch : PMState :=
  ⟨[mkSimplePost "intro-to-javascript" "2025-01-01",
    mkSimplePost "cooking" "2025-01-02"], [], [], true, "grid"⟩

/-- The parameter object `navigate("search", {q: "hello"})` receives. -/
def cxParams : Params := ⟨none, none, none, some "hello".data⟩

/-- A photo reference that itself contains a placeholder token. -/
def cxPhoto : List Char := "\x7b\x7bphoto1\x7d\x7d".data

/-- The spec's placeholder scenario content. -/
def c9content : List Char := "<p>\x7b\x7bphoto1\x7d\x7d</p>".data

/-- The placeholder token without its two leading braces (so
`placeholderPat n = ... :: ... :: photoRest n`). -/
def photoRest (n : Nat) : List Char :=
  "photo".data ++ (Nat.repr n).data ++ "\x7d\x7d".data

/-! ## Helper lemmas -/

theorem isInfixB_nil (hay : List Char) : isInfixB [] hay = true := by
  cases hay <;> simp [isInfixB, List.isPrefixOf, List.isEmpty]

/-! ## C10: the empty query matches every post -/

/-- C10: on a non-empty loaded collection, the raw search function with
the empty query returns every post (the empty substring matches every
title), so filtering to the empty query is the identity on the
collection. -/
theorem c10_empty_query_identity (extract : String → String) (s : PMState)
    (h : s.posts ≠ []) : searchPosts extract "" s = s.posts := by
  apply List.filter_eq_self.mpr
  intro p hp
  simp [isInfixB_nil, jsToLowerL]

theorem c10_witness : searchPosts id "" s8 = s8.posts :=
  c10_empty_query_identity id s8 (by decide)

/-! ## C6: search is a case-insensitive any-field substring filter in
collection order -/

/-- C6: for a query of length at least 2, `searchPosts` returns exactly
the posts on which a case-insensitive substring test succeeds for at
least one of title, plain-text content, tag labels or category label,
in collection order. -/
theorem c6_search_matches_spec (extract : String → String) (query : String) (s : PMState)
    (h : 2 ≤ query.length) :
    searchPosts extract query s = s.posts.filter (specSearchMatches extract query) := by
  apply List.filter_congr
  intro p hp
  simp only [specSearchMatches, specSearchFields, List.any_append, List.any_cons,
    List.any_nil, Bool.or_false]
  cases p.category <;> simp [Bool.or_assoc, List.any_eq]

theorem c6_witness :
    searchPosts id "JavaScript" sSearch =
      sSearch.posts.filter (specSearchMatches id "JavaScript") :=
  c6_search_matches_spec id "JavaScript" sSearch (by decide)

/-! ## C7: short queries

The claim says every query with trimmed length below 2 is a no-op with
no navigation; in the code an empty trimmed query *does* navigate (to
the home route), so the claim fails at the empty query and only the
length-1 case is a true no-op. -/

/-- C7 counterexample: the empty query has trimmed length `0 < 2`, yet
`handleSearch` navigates home rather than doing nothing. -/
theorem c7_counterexample :
    (jsTrim "").data.length < 2 ∧
      (handleSearch id id envTriv "" initialState).1 ≠ SearchAction.noop := by
  decide

/-- C7 amended: a query whose trimmed length is exactly 1 is a no-op
(no navigation, no result computation, state untouched); a query whose
trimmed length is 0 instead triggers a navigation to the home route
(also without computing results). -/
theorem c7_amended (extract fmtDate : String → String) (env : BlogEnv) (query : String)
    (s : PMState) :
    ((jsTrim query).data.length = 1 →
      handleSearch extract fmtDate env query s = (SearchAction.noop, s)) ∧
    ((jsTrim query).data.length = 0 →
      handleSearch extract fmtDate env query s = (SearchAction.navigateHome, s)) := by
  constructor
  · intro h1
    simp [handleSearch, h1]
  · intro h0
    simp [handleSearch, h0]

theorem c7_amended_witness :
    handleSearch id id envTriv " a " initialState = (SearchAction.noop, initialState) ∧
      handleSearch id id envTriv "  " initialState = (SearchAction.navigateHome, initialState) :=
  ⟨(c7_amended id id envTriv " a " initialState).1 (by decide),
   (c7_amended id id envTriv "  " initialState).2 (by decide)⟩

/-! ## C8: read operations and mutation of the stored collection

The spec claims the stored collection is never mutated by a read
operation and that `getPostsByCategory` preserves the original index
order even after `getLatestPosts`.  In the code `getLatestPosts` calls
`this.posts.sort(...)`, and `Array.prototype.sort` sorts **in place**:
the stored collection is reordered by descending date, and subsequent
category/tag filters return date order instead of index order.  The
spec is clearly the intent (a getter performing a hidden mutation is a
classic missing-copy slip); the code is the bug. -/

/-- C8: evaluating the code at the failing input.  The store holds
`[pOld, pNew]` in index order; after `getLatestPosts(1)` the stored
collection has changed, and `getPostsByCategory` now returns
`[pNew, pOld]` instead of the original `[pOld, pNew]`. -/
theorem c8_sort_mutates_store :
    ((getLatestPosts isoDateVal s8 1).2.posts ≠ s8.posts) ∧
    (getPostsByCategory "c" (getLatestPosts isoDateVal s8 1).2 ≠ getPostsByCategory "c" s8) ∧
    (getPostsByCategory "c" (getLatestPosts isoDateVal s8 1).2 = [pNew, pOld]) ∧
    (getPostsByCategory "c" s8 = [pOld, pNew]) := by
  decide

/-! ## C5: latest posts -/

/-- C5: `getLatestPosts` returns a permutation of the collection sorted
by descending date and truncated to `n`; in particular, asking for the
3 latest of 5 posts with distinct dates yields exactly the 3 most
recent ones in descending date order. -/
theorem c5_latest_sorted_truncated :
    (∀ (dateVal : String → Int) (s : PMState) (n : Nat),
      ∃ full : List Post, full.Perm s.posts ∧
        full.Pairwise (fun a b => dateVal b.date ≤ dateVal a.date) ∧
        (getLatestPosts dateVal s n).1 = full.take n) ∧
    (getLatestPosts isoDateVal fiveState 3).1 = [post5, post4, post3] := by
  constructor
  · intro dateVal s n
    refine ⟨List.insertionSort (fun a b => dateVal b.date ≤ dateVal a.date) s.posts,
      List.perm_insertionSort _ _, ?_, rfl⟩
    haveI ht : IsTotal Post (fun a b => dateVal b.date ≤ dateVal a.date) :=
      ⟨fun a b => le_total (dateVal b.date) (dateVal a.date)⟩
    haveI htr : IsTrans Post (fun a b => dateVal b.date ≤ dateVal a.date) :=
      ⟨fun _ _ _ hab hbc => le_trans hbc hab⟩
    exact List.sorted_insertionSort _ s.posts
  · decide

/-! ## C4: the load is memoized -/

/-- C4: after any successful `loadAllPosts` call, every later call —
under any environment — returns the very same collection, leaves the
state untouched and performs no fetch at all. -/
theorem c4_load_idempotent (extract fmtDate extract2 fmtDate2 : String → String)
    (env env2 : BlogEnv) (s s1 : PMState) (ps : List Post) (reqs : List String)
    (h : loadAllPostsS extract fmtDate env s = (.ok ps, s1, reqs)) :
    loadAllPostsS extract2 fmtDate2 env2 s1 = (.ok ps, s1, []) := by
  unfold loadAllPostsS at h ⊢
  by_cases hl : s.postsLoaded
  · simp [hl] at h
    obtain ⟨h1, h2, h3⟩ := h
    simp [← h2, hl, h1]
  · simp [hl] at h
    cases hidx : env.indexFetch with
    | netError => rw [hidx] at h; simp at h
    | httpError =>
      rw [hidx] at h
      simp at h
      obtain ⟨h1, h2, h3⟩ := h
      simp [← h2, extractCategoriesAndTags, ← h1]
    | ok doc =>
      cases doc with
      | none => rw [hidx] at h; simp at h
      | some idx =>
        rw [hidx] at h
        simp at h
        obtain ⟨h1, h2, h3⟩ := h
        simp [← h2, extractCategoriesAndTags, ← h1]

theorem c4_witness :
    loadAllPostsS id id envTriv ((loadAllPostsS id id envC1 initialState).2.1) =
      (.ok ((["a", "b", "c"] : List String).filterMap (loadPost id id envC1)),
       (loadAllPostsS id id envC1 initialState).2.1, []) :=
  c4_load_idempotent id id id id envC1 envTriv initialState
    ((loadAllPostsS id id envC1 initialState).2.1)
    ((["a", "b", "c"] : List String).filterMap (loadPost id id envC1))
    ((loadAllPostsS id id envC1 initialState).2.2) rfl

/-! ## C1: partial-failure isolation of the load -/

theorem reqFieldOk_true_iff (o : Option String) : reqFieldOk o = true ↔ o.getD "" ≠ "" := by
  cases o <;> simp [reqFieldOk]

theorem loadPost_isSome_iff_specSurvives (extract fmtDate : String → String)
    (env : BlogEnv) (sl : String) :
    (loadPost extract fmtDate env sl).isSome = specSurvives env sl := by
  unfold loadPost specSurvives
  cases env.postFetch sl with
  | httpError => rfl
  | netError => rfl
  | ok doc =>
    cases doc with
    | none => rfl
    | some d =>
      rw [Bool.eq_iff_iff]
      by_cases hv : validatePost d = true
      · simp only [if_pos hv, Option.isSome_some, true_iff]
        simp only [validatePost, Bool.and_eq_true, reqFieldOk_true_iff] at hv
        simp only [Bool.and_eq_true, decide_eq_true_eq]
        exact hv
      · simp only [if_neg hv, Option.isSome_none, Bool.false_eq_true, false_iff]
        intro hcon
        apply hv
        simp only [Bool.and_eq_true, decide_eq_true_eq] at hcon
        simp only [validatePost, Bool.and_eq_true, reqFieldOk_true_iff]
        exact hcon

/-- C1: when the index fetch succeeds with a listing `slugs`, the load
resolves (no exception escapes) with exactly the per-slug load results
that survived, in index order; and a slug survives precisely when its
fetch succeeded and the document carries non-empty `slug`, `title`,
`author`, `date` and `contents`. -/
theorem c1_load_partial_failure (extract fmtDate : String → String) (env : BlogEnv)
    (slugs : List String) (s : PMState)
    (hidx : env.indexFetch = .ok (some ⟨some slugs⟩)) (hload : s.postsLoaded = false) :
    (loadAllPostsS extract fmtDate env s).1 =
      .ok (slugs.filterMap (loadPost extract fmtDate env)) ∧
    ∀ sl, (loadPost extract fmtDate env sl).isSome = specSurvives env sl := by
  constructor
  · unfold loadAllPostsS
    rw [hload, hidx]
    simp [List.filterMap_map]
  · intro sl
    exact loadPost_isSome_iff_specSurvives extract fmtDate env sl

/-- C1 witness: index `["a","b","c"]` with `"b"` failing (404) — the
load resolves with the two surviving posts `[a, c]` in index order. -/
theorem c1_witness :
    (loadAllPostsS id id envC1 initialState).1 =
      .ok ((["a", "b", "c"] : List String).filterMap (loadPost id id envC1)) ∧
    (["a", "b", "c"] : List String).filterMap (loadPost id id envC1) =
      [processPost id id (mkSimpleDoc "a"), processPost id id (mkSimpleDoc "c")] :=
  ⟨(c1_load_partial_failure id id envC1 ["a", "b", "c"] initialState rfl rfl).1,
   by decide⟩

/-! ## C2: behaviour on index failure

The claim says *every* failure to fetch or parse the index aborts the
load with an error and no collection is produced from any other
source.  In the code only a thrown failure (network error or `json()`
parse error) aborts; a non-ok HTTP response (e.g. 404 — a fetch failure
in the spec's own vocabulary, compare its post-404 scenario) silently
falls back to `discoverPosts`, which probes a hard-coded list of
well-known slugs and produces a collection from whichever exist. -/

/-- C2 counterexample: with the index fetch failing (404) and one
well-known slug available, the load resolves with a one-post collection
taken from the probe list instead of surfacing an error. -/
theorem c2_counterexample :
    indexFetchFailed envC2 = true ∧
    (loadAllPostsS id id envC2 initialState).1 =
      .ok [processPost id id (mkSimpleDoc "welcome-to-my-blog")] ∧
    (loadAllPostsS id id envC2 initialState).1 ≠ .error () := by
  refine ⟨rfl, rfl, ?_⟩
  intro hcontra
  have heval : (loadAllPostsS id id envC2 initialState).1 =
      .ok [processPost id id (mkSimpleDoc "welcome-to-my-blog")] := rfl
  rw [heval] at hcontra
  exact Except.noConfusion hcontra

/-- C2 amended: a *thrown* index failure (network error, or an ok
response whose body fails to parse) aborts the whole load and surfaces
the error; a non-ok index response does not abort — the load instead
resolves with the collection built from the `discoverPosts` probe
list. -/
theorem c2_amended (extract fmtDate : String → String) (env : BlogEnv) (s : PMState)
    (hload : s.postsLoaded = false) :
    ((env.indexFetch = .netError ∨ env.indexFetch = .ok none) →
      (loadAllPostsS extract fmtDate env s).1 = .error ()) ∧
    (env.indexFetch = .httpError →
      (loadAllPostsS extract fmtDate env s).1 =
        .ok ((discoverPosts env).filterMap (loadPost extract fmtDate env))) := by
  constructor
  · rintro (hidx | hidx) <;> · unfold loadAllPostsS; rw [hload, hidx]; simp
  · intro hidx
    unfold loadAllPostsS
    rw [hload, hidx]
    simp [List.filterMap_map]

theorem c2_amended_witness :
    (loadAllPostsS id id envNetErr initialState).1 = .error () ∧
    (loadAllPostsS id id envC2 initialState).1 =
      .ok ((discoverPosts envC2).filterMap (loadPost id id envC2)) :=
  ⟨(c2_amended id id envNetErr initialState rfl).1 (Or.inl rfl),
   (c2_amended id id envC2 initialState rfl).2 rfl⟩

/-! ## C3: the fragment round trip

The claim asserts `parse(toFragment(r, p))` recovers `(r, p)` for every
route in the fixed set and parameters drawn from slug, category, tag
and free-text query.  `handleRouteChange` splits the hash on `/`
*before* stripping the query segment, so any fragment carrying a query
parameter but no slug — e.g. `#search?q=hello` — parses its route name
as `search?q=hello`, not `search`; the round trip fails for every
category/tag/query parameter.  It does hold for parameter objects
carrying only a (well-formed) slug. -/

theorem splitOnC_ne_nil (sep : Char) (l : List Char) : splitOnC sep l ≠ [] := by
  cases l with
  | nil => simp [splitOnC]
  | cons c rest =>
    cases h : splitOnC sep rest with
    | nil => simp [splitOnC, h]
    | cons g gs => by_cases hc : c = sep <;> simp [splitOnC, h, hc]

theorem splitOnC_eq_single (sep : Char) (l : List Char) (h : sep ∉ l) :
    splitOnC sep l = [l] := by
  induction l with
  | nil => rfl
  | cons c rest ih =>
    have hc : c ≠ sep := by rintro rfl; exact h (List.mem_cons_self _ _)
    have hrest : sep ∉ rest := fun hh => h (List.mem_cons_of_mem _ hh)
    simp [splitOnC, ih hrest, hc]

theorem splitOnC_append (sep : Char) (a b : List Char) (h : sep ∉ a) :
    splitOnC sep (a ++ sep :: b) = a :: splitOnC sep b := by
  induction a with
  | nil =>
    cases hb : splitOnC sep b with
    | nil => exact absurd hb (splitOnC_ne_nil sep b)
    | cons g gs => simp [splitOnC, hb]
  | cons c a2 ih =>
    have hc : c ≠ sep := by rintro rfl; exact h (List.mem_cons_self _ _)
    have ha2 : sep ∉ a2 := fun hh => h (List.mem_cons_of_mem _ hh)
    simp [splitOnC, ih ha2, hc]

theorem parseFragment_route_slug (route s : List Char) (hne : route ≠ [])
    (hr1 : '/' ∉ route) (hr2 : '?' ∉ route) (hs1 : '/' ∉ s) (hs2 : '?' ∉ s) :
    parseFragment (route ++ '/' :: s) = some (route, [(slugKey, s)]) := by
  have h1 : splitOnC '/' (route ++ '/' :: s) = [route, s] := by
    rw [splitOnC_append _ _ _ hr1, splitOnC_eq_single _ _ hs1]
  have hqmem : '?' ∉ route ++ '/' :: s := by
    intro hmem
    rcases List.mem_append.mp hmem with hmm | hmm
    · exact hr2 hmm
    · rcases List.mem_cons.mp hmm with hmm | hmm
      · exact absurd hmm (by decide)
      · exact hs2 hmm
  have h2 : splitOnC '?' (route ++ '/' :: s) = [route ++ '/' :: s] :=
    splitOnC_eq_single _ _ hqmem
  simp only [parseFragment, h1, h2]
  simp [urlSearchParams, splitOnC, hne]

theorem parseFragment_route_only (route : List Char) (hne : route ≠ [])
    (hr1 : '/' ∉ route) (hr2 : '?' ∉ route) :
    parseFragment route = some (route, []) := by
  have h1 : splitOnC '/' route = [route] := splitOnC_eq_single _ _ hr1
  have h2 : splitOnC '?' route = [route] := splitOnC_eq_single _ _ hr2
  simp only [parseFragment, h1, h2]
  simp [urlSearchParams, splitOnC, hne]

theorem roundTripB_slug_only (route : List Char) (p : Params) (hne : route ≠ [])
    (hr1 : '/' ∉ route) (hr2 : '?' ∉ route)
    (hcat : p.category = none) (htag : p.tag = none) (hq : p.q = none)
    (hslug : ∃ s, p.slug = some s ∧ s ≠ [] ∧ '/' ∉ s ∧ '?' ∉ s) :
    roundTripB route p = true := by
  obtain ⟨s, hps, hs0, hs1, hs2⟩ := hslug
  have hnav : navigateUrl route p = '#' :: (route ++ '/' :: s) := by
    simp [navigateUrl, hps, hcat, htag, hq, pTruthy, hs0]
  have hck : (("category".data : List Char) == slugKey) = false := by decide
  have htk : (("tag".data : List Char) == slugKey) = false := by decide
  have hqk : (("q".data : List Char) == slugKey) = false := by decide
  simp only [roundTripB, hnav, List.drop_succ_cons, List.drop_zero]
  rw [parseFragment_route_slug route s hne hr1 hr2 hs1 hs2]
  simp [List.lookup, truthyVal, hps, hcat, htag, hq, hs0, hck, htk, hqk]

theorem roundTripB_no_params (route : List Char) (p : Params) (hne : route ≠ [])
    (hr1 : '/' ∉ route) (hr2 : '?' ∉ route)
    (hslug : p.slug = none) (hcat : p.category = none) (htag : p.tag = none)
    (hq : p.q = none) :
    roundTripB route p = true := by
  have hnav : navigateUrl route p = '#' :: route := by
    simp [navigateUrl, hslug, hcat, htag, hq, pTruthy]
  simp only [roundTripB, hnav, List.drop_succ_cons, List.drop_zero]
  rw [parseFragment_route_only route hne hr1 hr2]
  simp [List.lookup, truthyVal, hslug, hcat, htag, hq]

/-- C3 counterexample: `search` is in the fixed route set and
`{q: "hello"}` is a system-producible parameter object, yet parsing the
fragment `navigate` builds for it does not recover `(search, {q})`:
the parsed route name is the whole of `search?q=hello`. -/
theorem c3_counterexample :
    ("search".data ∈ specRoutes) ∧ roundTripB "search".data cxParams = false := by
  constructor
  · decide
  · decide

/-- C3 amended: the round trip `parse(toFragment(r, p))` recovers an
equivalent `(r, p)` for every route in the fixed set when `p` carries
no category, tag or query parameter and its slug, if present, is a
non-empty URL-safe string (one containing neither `/` nor `?`).  With
any category/tag/query parameter present the `?` segment is absorbed
into the first path segment and the round trip fails (see the
counterexample). -/
theorem c3_roundtrip_amended (route : List Char) (p : Params)
    (hroute : route ∈ specRoutes)
    (hcat : p.category = none) (htag : p.tag = none) (hq : p.q = none)
    (hslug : p.slug = none ∨ ∃ s, p.slug = some s ∧ s ≠ [] ∧ '/' ∉ s ∧ '?' ∉ s) :
    roundTripB route p = true := by
  have hfacts : route ≠ [] ∧ '/' ∉ route ∧ '?' ∉ route := by
    fin_cases hroute <;> exact ⟨by decide, by decide, by decide⟩
  obtain ⟨h1, h2, h3⟩ := hfacts
  rcases hslug with hnone | hsome
  · exact roundTripB_no_params route p h1 h2 h3 hnone hcat htag hq
  · exact roundTripB_slug_only route p h1 h2 h3 hcat htag hq hsome

theorem c3_amended_witness :
    roundTripB "post".data ⟨some "my-slug".data, none, none, none⟩ = true ∧
    roundTripB "home".data ⟨none, none, none, none⟩ = true :=
  ⟨c3_roundtrip_amended "post".data ⟨some "my-slug".data, none, none, none⟩
    (by decide) rfl rfl rfl
    (Or.inr ⟨"my-slug".data, rfl, by decide, by decide, by decide⟩),
   c3_roundtrip_amended "home".data ⟨none, none, none, none⟩
    (by decide) rfl rfl rfl (Or.inl rfl)⟩

/-! ## C9: photo placeholder substitution

The claim asserts, for *every* contents string and photos list, that
every `\x7b\x7bphotoN\x7d\x7d` token is replaced and that the transform
is idempotent.  When a photo reference itself contains a placeholder
token, the substituted image element re-introduces the token and a
second application changes the text again, so the universal claim
fails; it holds whenever no photo reference contains a brace. -/

theorem replAllGoPlain_skip (pat rep : List Char) (k : Nat) (s : List Char) :
    replAllGoPlain pat rep k s = replAllGoPlain pat rep 0 (s.drop k) := by
  induction s generalizing k with
  | nil => cases k <;> simp [replAllGoPlain]
  | cons c rest ih =>
    cases k with
    | zero => simp
    | succ k2 => simp [replAllGoPlain, ih k2]

theorem replAllGo_of_not_infix (pat rep : List Char) :
    ∀ (before s : List Char), ¬ pat <:+: s → replAllGo pat rep 0 before s = s := by
  intro before s
  induction s generalizing before with
  | nil => intro; rfl
  | cons c rest ih =>
    intro hni
    have hp : pat.isPrefixOf (c :: rest) = false := by
      cases hpp : pat.isPrefixOf (c :: rest)
      · rfl
      · exact absurd ( List.isPrefixOf_iff_prefix.mp hpp).isInfix hni
    simp only [replAllGo, hp, Bool.false_eq_true, if_false, List.cons.injEq, true_and]
    exact ih _ fun hh => hni (List.infix_cons hh)

theorem prefix_reflect_plain (pat rep : List Char) (hrep : rep.head? = some '<') :
    ∀ (r s : List Char), '<' ∉ r → r <+: replAllGoPlain pat rep 0 s → r <+: s := by
  intro r s
  induction s generalizing r with
  | nil =>
    intro hlt hpre
    simp only [replAllGoPlain] at hpre
    exact hpre
  | cons c rest ih =>
    intro hlt hpre
    obtain ⟨repTl, hrepeq⟩ : ∃ xs, rep = '<' :: xs := by
      cases rep with
      | nil => simp at hrep
      | cons x xs => simp at hrep; exact ⟨xs, by rw [hrep]⟩
    by_cases hp : pat.isPrefixOf (c :: rest) = true
    · rw [replAllGoPlain, if_pos hp] at hpre
      cases r with
      | nil => exact List.nil_prefix
      | cons d r2 =>
        rw [hrepeq, List.cons_append, List.cons_prefix_cons] at hpre
        exact absurd (hpre.1 ▸ List.mem_cons_self d r2) hlt
    · rw [replAllGoPlain, if_neg hp] at hpre
      cases r with
      | nil => exact List.nil_prefix
      | cons d r2 =>
        rw [List.cons_prefix_cons] at hpre
        obtain ⟨rfl, h2⟩ := hpre
        exact List.cons_prefix_cons.mpr
          ⟨rfl, ih r2 (fun hh => hlt (List.mem_cons_of_mem _ hh)) h2⟩

theorem prefix_reflect_one (pat rep : List Char) (hrep : rep.head? = some '<')
    (r : List Char) (hlt : '<' ∉ r) :
    ∀ s : List Char, ('{' :: r) <+: replAllGoPlain pat rep 0 s → ('{' :: r) <+: s := by
  intro s hpre
  obtain ⟨repTl, hrepeq⟩ : ∃ xs, rep = '<' :: xs := by
    cases rep with
    | nil => simp at hrep
    | cons x xs => simp at hrep; exact ⟨xs, by rw [hrep]⟩
  cases s with
  | nil =>
    simp only [replAllGoPlain] at hpre
    simp at hpre
  | cons c rest =>
    by_cases hp : pat.isPrefixOf (c :: rest) = true
    · rw [replAllGoPlain, if_pos hp, hrepeq, List.cons_append, List.cons_prefix_cons] at hpre
      exact absurd hpre.1 (by decide)
    · rw [replAllGoPlain, if_neg hp, List.cons_prefix_cons] at hpre
      obtain ⟨rfl, h2⟩ := hpre
      exact List.cons_prefix_cons.mpr
        ⟨rfl, prefix_reflect_plain pat rep hrep r rest hlt h2⟩

theorem prefix_reflect_two (pat rep : List Char) (hrep : rep.head? = some '<')
    (r : List Char) (hlt : '<' ∉ r) :
    ∀ s : List Char, ('{' :: '{' :: r) <+: replAllGoPlain pat rep 0 s →
      ('{' :: '{' :: r) <+: s := by
  intro s hpre
  obtain ⟨repTl, hrepeq⟩ : ∃ xs, rep = '<' :: xs := by
    cases rep with
    | nil => simp at hrep
    | cons x xs => simp at hrep; exact ⟨xs, by rw [hrep]⟩
  cases s with
  | nil =>
    simp only [replAllGoPlain] at hpre
    simp at hpre
  | cons c rest =>
    by_cases hp : pat.isPrefixOf (c :: rest) = true
    · rw [replAllGoPlain, if_pos hp, hrepeq, List.cons_append, List.cons_prefix_cons] at hpre
      exact absurd hpre.1 (by decide)
    · rw [replAllGoPlain, if_neg hp, List.cons_prefix_cons] at hpre
      obtain ⟨rfl, h2⟩ := hpre
      exact List.cons_prefix_cons.mpr
        ⟨rfl, prefix_reflect_one pat rep hrep r hlt rest h2⟩

theorem infix_skip_left (q a b : List Char) (hq : q.head? = some '{') (ha : '{' ∉ a)
    (h : q <:+: a ++ b) : q <:+: b := by
  induction a with
  | nil => simpa using h
  | cons x a2 ih =>
    rw [List.cons_append, List.infix_cons_iff] at h
    rcases h with hpre | hinf
    · obtain ⟨q2, rfl⟩ : ∃ q2, q = '{' :: q2 := by
        cases q with
        | nil => simp at hq
        | cons o q2 => simp at hq; exact ⟨q2, by rw [hq]⟩
      rw [List.cons_prefix_cons] at hpre
      exact absurd (hpre.1 ▸ List.mem_cons_self x a2) ha
    · exact ih (fun hh => ha (List.mem_cons_of_mem _ hh)) hinf

theorem not_infix_replAllGoPlain (pat rep r0 : List Char) (hpat : pat = '{' :: '{' :: r0)
    (h0 : '<' ∉ r0) (hrep : rep.head? = some '<') (hrepBr : '{' ∉ rep) :
    ∀ s : List Char, ¬ pat <:+: replAllGoPlain pat rep 0 s
  | [] => by
    intro hinf
    rw [hpat] at hinf
    simp only [replAllGoPlain] at hinf
    simp at hinf
  | c :: rest => by
    intro hinf
    by_cases hp : pat.isPrefixOf (c :: rest) = true
    · rw [replAllGoPlain, if_pos hp, replAllGoPlain_skip] at hinf
      have h2 := infix_skip_left pat rep _ (by rw [hpat]; rfl) hrepBr hinf
      exact not_infix_replAllGoPlain pat rep r0 hpat h0 hrep hrepBr
        (rest.drop (pat.length - 1)) h2
    · rw [replAllGoPlain, if_neg hp] at hinf
      rcases List.infix_cons_iff.mp hinf with hpre | hinf2
      · have hback : pat <+: replAllGoPlain pat rep 0 (c :: rest) := by
          rw [replAllGoPlain, if_neg hp]
          exact hpre
        rw [hpat] at hback
        have hrefl := prefix_reflect_two ('{' :: '{' :: r0) rep hrep r0 h0 (c :: rest) hback
        rw [← hpat] at hrefl
        exact hp ( List.isPrefixOf_iff_prefix.mpr hrefl)
      · exact not_infix_replAllGoPlain pat rep r0 hpat h0 hrep hrepBr rest hinf2
termination_by s => s.length
decreasing_by
  · simp only [List.length_cons, List.length_drop]
    omega
  · simp only [List.length_cons]
    omega

theorem not_infix_replAllGoPlain_other (pat rep q rq : List Char)
    (hq : q = '{' :: '{' :: rq) (hrq : '<' ∉ rq)
    (hrep : rep.head? = some '<') (hrepBr : '{' ∉ rep) :
    ∀ s : List Char, ¬ q <:+: s → ¬ q <:+: replAllGoPlain pat rep 0 s
  | [] => by
    intro _ hinf
    simp only [replAllGoPlain] at hinf
    rw [hq] at hinf
    simp at hinf
  | c :: rest => by
    intro hs hinf
    by_cases hp : pat.isPrefixOf (c :: rest) = true
    · rw [replAllGoPlain, if_pos hp, replAllGoPlain_skip] at hinf
      have h2 := infix_skip_left q rep _ (by rw [hq]; rfl) hrepBr hinf
      have hdrop : ¬ q <:+: rest.drop (pat.length - 1) := fun hh =>
        hs (hh.trans ((List.drop_suffix _ _).trans (List.suffix_cons c rest)).isInfix)
      exact not_infix_replAllGoPlain_other pat rep q rq hq hrq hrep hrepBr
        (rest.drop (pat.length - 1)) hdrop h2
    · rw [replAllGoPlain, if_neg hp] at hinf
      rcases List.infix_cons_iff.mp hinf with hpre | hinf2
      · have hback : q <+: replAllGoPlain pat rep 0 (c :: rest) := by
          rw [replAllGoPlain, if_neg hp]
          exact hpre
        rw [hq] at hback
        have hrefl := prefix_reflect_two pat rep hrep rq hrq (c :: rest) hback
        rw [← hq] at hrefl
        exact hs hrefl.isInfix
      · exact not_infix_replAllGoPlain_other pat rep q rq hq hrq hrep hrepBr rest
          (fun hh => hs (List.infix_cons hh)) hinf2
termination_by s => s.length
decreasing_by
  · simp only [List.length_cons, List.length_drop]
    omega
  · simp only [List.length_cons]
    omega

theorem digitChar_isDigit (m : Nat) (h : m < 10) : (Nat.digitChar m).isDigit = true := by
  interval_cases m <;> decide

theorem toDigitsCore_digits (fuel n : Nat) (ds : List Char)
    (hds : ∀ c ∈ ds, c.isDigit = true) :
    ∀ c ∈ Nat.toDigitsCore 10 fuel n ds, c.isDigit = true := by
  induction fuel generalizing n ds with
  | zero => exact hds
  | succ fuel2 ih =>
    intro c hc
    rw [Nat.toDigitsCore] at hc
    have hdig : ∀ x ∈ Nat.digitChar (n % 10) :: ds, x.isDigit = true := by
      intro x hx
      rcases List.mem_cons.mp hx with rfl | hx
      · exact digitChar_isDigit _ (Nat.mod_lt _ (by omega))
      · exact hds x hx
    by_cases hz : n / 10 = 0
    · rw [if_pos hz] at hc
      exact hdig c hc
    · rw [if_neg hz] at hc
      exact ih (n / 10) _ hdig c hc

theorem repr_digits (n : Nat) : ∀ c ∈ (Nat.repr n).data, c.isDigit = true := by
  intro c hc
  exact toDigitsCore_digits (n + 1) n [] (by simp) c hc

theorem placeholderPat_shape (n : Nat) :
    placeholderPat n = '{' :: '{' :: photoRest n := by
  rw [placeholderPat, photoRest]
  have hlit : ("\x7b\x7bphoto".data : List Char) = '{' :: '{' :: "photo".data := by decide
  rw [hlit]
  simp [List.cons_append]

theorem photoRest_no_langle (n : Nat) : '<' ∉ photoRest n := by
  rw [photoRest]
  intro hmem
  rcases List.mem_append.mp hmem with hmm | hmm
  · rcases List.mem_append.mp hmm with hmm2 | hmm2
    · exact absurd hmm2 (by decide)
    · exact absurd (repr_digits n _ hmm2) (by decide)
  · exact absurd hmm (by decide)

theorem placeholderPat_head (n : Nat) : (placeholderPat n).head? = some '{' := by
  rw [placeholderPat_shape]
  rfl

theorem imgTag_head (ph : List Char) (n : Nat) : (imgTag ph n).head? = some '<' := by
  rw [imgTag]
  have hlit : ("<img src=\"".data : List Char) = '<' :: "img src=\"".data := by decide
  rw [hlit]
  simp [List.cons_append]

theorem imgTag_no_brace (ph : List Char) (n : Nat) (hph : '{' ∉ ph) :
    '{' ∉ imgTag ph n := by
  rw [imgTag]
  intro hmem
  rcases List.mem_append.mp hmem with hmm | hmm
  · rcases List.mem_append.mp hmm with hmm2 | hmm2
    · rcases List.mem_append.mp hmm2 with hmm3 | hmm3
      · rcases List.mem_append.mp hmm3 with hmm4 | hmm4
        · exact absurd hmm4 (by decide)
        · exact hph hmm4
      · exact absurd hmm3 (by decide)
    · exact absurd (repr_digits n _ hmm2) (by decide)
  · exact absurd hmm (by decide)

theorem getSubstitution_no_dollar (matched before after : List Char) :
    ∀ rep : List Char, '$' ∉ rep → getSubstitution matched before after rep = rep := by
  intro rep
  induction rep with
  | nil => intro; rfl
  | cons c rest ih =>
    intro h
    have hc : c ≠ '$' := by rintro rfl; exact h (List.mem_cons_self _ _)
    have hrest : '$' ∉ rest := fun hh => h (List.mem_cons_of_mem _ hh)
    rw [getSubstitution.eq_def]
    simp only [if_neg hc, ih hrest]

theorem replAllGo_eq_plain (pat rep : List Char) (hrep : '$' ∉ rep) :
    ∀ (k : Nat) (before s : List Char),
      replAllGo pat rep k before s = replAllGoPlain pat rep k s := by
  intro k before s
  induction s generalizing k before with
  | nil => cases k <;> rfl
  | cons c rest ih =>
    cases k with
    | zero =>
      by_cases hp : pat.isPrefixOf (c :: rest) = true
      · simp only [replAllGo, replAllGoPlain, if_pos hp]
        rw [getSubstitution_no_dollar _ _ _ rep hrep, ih]
      · simp only [replAllGo, replAllGoPlain, if_neg hp]
        rw [ih]
    | succ k2 =>
      simp only [replAllGo, replAllGoPlain]
      exact ih k2 _

theorem imgTag_no_dollar (ph : List Char) (n : Nat) (hph : '$' ∉ ph) :
    '$' ∉ imgTag ph n := by
  rw [imgTag]
  intro hmem
  rcases List.mem_append.mp hmem with hmm | hmm
  · rcases List.mem_append.mp hmm with hmm2 | hmm2
    · rcases List.mem_append.mp hmm2 with hmm3 | hmm3
      · rcases List.mem_append.mp hmm3 with hmm4 | hmm4
        · exact absurd hmm4 (by decide)
        · exact hph hmm4
      · exact absurd hmm3 (by decide)
    · exact absurd (repr_digits n _ hmm2) (by decide)
  · exact absurd hmm (by decide)

theorem replacePhotosAux_preserve (q rq : List Char) (hq : q = '{' :: '{' :: rq)
    (hrq : '<' ∉ rq) :
    ∀ (photos : List (List Char)) (i : Nat) (content : List Char),
      (∀ ph ∈ photos, '{' ∉ ph ∧ '$' ∉ ph) → ¬ q <:+: content →
      ¬ q <:+: replacePhotosAux i photos content := by
  intro photos
  induction photos with
  | nil =>
    intro i content _ hc
    simpa [replacePhotosAux] using hc
  | cons ph rest ih =>
    intro i content hben hc
    simp only [replacePhotosAux]
    apply ih (i + 1) _ (fun x hx => hben x (List.mem_cons_of_mem _ hx))
    simp only [jsReplaceAll]
    rw [replAllGo_eq_plain _ _ (imgTag_no_dollar _ _ (hben ph (List.mem_cons_self _ _)).2)]
    exact not_infix_replAllGoPlain_other (placeholderPat (i + 1)) (imgTag ph (i + 1)) q rq
      hq hrq (imgTag_head _ _) (imgTag_no_brace _ _ (hben ph (List.mem_cons_self _ _)).1)
      content hc

theorem replacePhotosAux_progress :
    ∀ (photos : List (List Char)) (i : Nat) (content : List Char) (K : Nat),
      (∀ ph ∈ photos, '{' ∉ ph ∧ '$' ∉ ph) → i < K → K ≤ i + photos.length →
      ¬ placeholderPat K <:+: replacePhotosAux i photos content := by
  intro photos
  induction photos with
  | nil =>
    intro i content K _ h1 h2
    simp only [List.length_nil, Nat.add_zero] at h2
    omega
  | cons ph rest ih =>
    intro i content K hben h1 h2
    simp only [replacePhotosAux]
    by_cases hK : K = i + 1
    · subst hK
      apply replacePhotosAux_preserve (placeholderPat (i + 1)) (photoRest (i + 1))
        (placeholderPat_shape _) (photoRest_no_langle _) rest (i + 1) _
        (fun x hx => hben x (List.mem_cons_of_mem _ hx))
      simp only [jsReplaceAll]
      rw [replAllGo_eq_plain _ _ (imgTag_no_dollar _ _ (hben ph (List.mem_cons_self _ _)).2)]
      exact not_infix_replAllGoPlain (placeholderPat (i + 1)) (imgTag ph (i + 1))
        (photoRest (i + 1)) (placeholderPat_shape _) (photoRest_no_langle _)
        (imgTag_head _ _) (imgTag_no_brace _ _ (hben ph (List.mem_cons_self _ _)).1)
        content
    · apply ih (i + 1) _ K (fun x hx => hben x (List.mem_cons_of_mem _ hx))
        (by omega)
      simp only [List.length_cons] at h2
      omega

theorem replacePhotosAux_id :
    ∀ (photos : List (List Char)) (i : Nat) (content : List Char),
      (∀ K, i < K → K ≤ i + photos.length → ¬ placeholderPat K <:+: content) →
      replacePhotosAux i photos content = content := by
  intro photos
  induction photos with
  | nil => intro i content _; rfl
  | cons ph rest ih =>
    intro i content h
    have h1 : ¬ placeholderPat (i + 1) <:+: content := by
      apply h (i + 1) (by omega)
      simp only [List.length_cons]
      omega
    simp only [replacePhotosAux, jsReplaceAll,
      replAllGo_of_not_infix _ _ [] content h1]
    apply ih (i + 1) content
    intro K hk1 hk2
    apply h K (by omega)
    simp only [List.length_cons]
    omega

/-- C9 counterexample: with `photos = [t]` where `t` is itself the
placeholder token `\x7b\x7bphoto1\x7d\x7d` and contents equal to that
token, the substituted image element re-introduces the token, so a
second application of the transform is not byte-identical to the
first — the claimed idempotence fails for this contents/photos pair. -/
theorem c9_counterexample :
    replacePhotoPlaceholdersL (replacePhotoPlaceholdersL cxPhoto [cxPhoto]) [cxPhoto] ≠
      replacePhotoPlaceholdersL cxPhoto [cxPhoto] := by
  decide

/-- C9 amended: provided no photo reference contains a brace character
or a dollar sign (so in particular no `$`-substitution sequence that
`String.prototype.replace` would expand — true of any ordinary path or
URL the placeholder system is meant for), the substitution replaces
every occurrence — no placeholder token for any of the supplied photos
survives in the output — and the transform is idempotent: a second
application is byte-identical. -/
theorem c9_placeholders_amended (content : List Char) (photos : List (List Char))
    (hben : ∀ ph ∈ photos, '{' ∉ ph ∧ '$' ∉ ph) :
    (∀ K, 1 ≤ K → K ≤ photos.length →
      ¬ placeholderPat K <:+: replacePhotoPlaceholdersL content photos) ∧
    replacePhotoPlaceholdersL (replacePhotoPlaceholdersL content photos) photos =
      replacePhotoPlaceholdersL content photos := by
  constructor
  · intro K h1 h2
    apply replacePhotosAux_progress photos 0 content K hben (by omega)
    simpa using h2
  · apply replacePhotosAux_id
    intro K h1 h2
    apply replacePhotosAux_progress photos 0 content K hben h1
    simpa using h2

theorem c9_witness :
    (¬ placeholderPat 1 <:+: replacePhotoPlaceholdersL c9content ["x.jpg".data]) ∧
    replacePhotoPlaceholdersL (replacePhotoPlaceholdersL c9content ["x.jpg".data])
        ["x.jpg".data] =
      replacePhotoPlaceholdersL c9content ["x.jpg".data] :=
  ⟨(c9_placeholders_amended c9content ["x.jpg".data] (by decide)).1 1 (by decide)
    (by decide),
   (c9_placeholders_amended c9content ["x.jpg".data] (by decide)).2⟩

end Blog
